import Mathlib

/-!
Verification of the `video-clipper` tool (`src/video-clipper/video_clipper.py`)
against its natural-language specification.

The Python source is shallowly embedded below.  Pure string / arithmetic
helpers become Lean functions on `String` / `Nat`; calls to external
collaborators (the downloader, the transcription engine, the filesystem,
`datetime.now()`) become explicit parameters or success/failure oracles; the
orchestrating `main` becomes a function producing a trace of observable
events.  Python `str` values are modelled as Lean `String` (a list of
unicode code points, matching Python's view of `str`).
-/

/-- The double-quote character `"`. -/
def dquote : Char := Char.ofNat 34

/-- The single-quote character `'`. -/
def squote : Char := Char.ofNat 39

def squoteStr : String := String.singleton squote

/-- Decidable prefix test on character lists (embedding of Python's
`str.startswith`, used only to build the substring test below). -/
def isPrefixCL : List Char → List Char → Bool
  | [], _ => true
  | _ :: _, [] => false
  | a :: as, b :: bs => a == b && isPrefixCL as bs

/-- Decidable substring test on character lists. -/
def containsCL (needle : List Char) : List Char → Bool
  | [] => isPrefixCL needle []
  | c :: rest => isPrefixCL needle (c :: rest) || containsCL needle rest

/-- Embedding of Python's substring operator: `strContains hay needle`
models `needle in hay`. -/
def strContains (hay needle : String) : Bool :=
  containsCL needle.toList hay.toList

/-!
### Platform detection

```python
def detect_platform(url: str) -> str:
    parsed = urlparse(url)
    domain = parsed.netloc.lower()
    path = parsed.path.lower()
    if "tiktok.com" in domain or "tiktok" in domain:
        return "tiktok"
    elif "youtube.com" in domain or "youtu.be" in domain:
        return "youtube"
    elif "instagram.com" in domain and "/reel" in path:
        return "reel"
    elif "instagram.com" in domain:
        return "reel"  # Assume Instagram links are reels
    else:
        raise ValueError(f"Unsupported platform for URL: {url}")
```

`urllib.parse.urlparse` is standard-library code external to this repo; its
result is passed in as a `ParsedUrl` record (netloc and path components of
the URL).  The raised `ValueError` becomes the `Except.error` branch.
-/
/-- Result of Python's `urlparse(url)`: the network-location (host) and path
components. -/
structure ParsedUrl where
  netloc : String
  path : String

/-- Embedding of Python's `str.lower()` (character-wise lowercasing). -/
def pyLower (s : String) : String :=
  String.mk (s.toList.map Char.toLower)

/-- Embedding of `detect_platform`.  `p` is `urlparse url`. -/
def detect_platform (url : String) (p : ParsedUrl) : Except String String :=
  let domain := pyLower p.netloc
  let path := pyLower p.path
  if strContains domain "tiktok.com" || strContains domain "tiktok" then
    Except.ok "tiktok"
  else if strContains domain "youtube.com" || strContains domain "youtu.be" then
    Except.ok "youtube"
  else if strContains domain "instagram.com" && strContains path "/reel" then
    Except.ok "reel"
  else if strContains domain "instagram.com" then
    Except.ok "reel"
  else
    Except.error ("Unsupported platform for URL: " ++ url)

/-!
### Date formatting

```python
def format_date(date_str: str) -> str:
    if date_str and len(date_str) == 8:
        return f"{date_str[:4]}-{date_str[4:6]}-{date_str[6:8]}"
    return datetime.now().strftime("%Y-%m-%d")
```

`datetime.now().strftime("%Y-%m-%d")` is an external effect; its value is the
explicit parameter `today`.
-/
/-- Embedding of `format_date`; `today` is the value of
`datetime.now().strftime` at call time. -/
def format_date (date_str : String) (today : String) : String :=
  if (!(date_str == "")) && (date_str.length == 8) then
    date_str.take 4 ++ "-" ++ (date_str.drop 4).take 2 ++ "-" ++ (date_str.drop 6).take 2
  else today

/-!
### Duration formatting (inline in `create_obsidian_note`, lines 171-180)

```python
    if duration:
        hours, remainder = divmod(int(duration), 3600)
        minutes, seconds = divmod(remainder, 60)
        if hours:
            duration_str = f"{hours:02d}:{minutes:02d}:{seconds:02d}"
        else:
            duration_str = f"{minutes:02d}:{seconds:02d}"
    else:
        duration_str = "Unknown"
```
-/
/-- Embedding of Python's `f"{n:02d}"` for a natural number: decimal digits,
zero-padded on the left to width 2. -/
def d02 (n : Nat) : String :=
  let s := toString n
  if s.length < 2 then "0" ++ s else s

/-- The duration-string computation inlined in `create_obsidian_note`. -/
def format_duration (duration : Nat) : String :=
  if duration != 0 then
    let hours := duration / 3600
    let remainder := duration % 3600
    let minutes := remainder / 60
    let seconds := remainder % 60
    if hours != 0 then
      d02 hours ++ ":" ++ d02 minutes ++ ":" ++ d02 seconds
    else
      d02 minutes ++ ":" ++ d02 seconds
  else
    "Unknown"

/-!
### Summarization

```python
def generate_summary(transcript: str, max_sentences: int = 2) -> str:
    sentences = re.split(r"(?<=[.!?])\s+", transcript)
    summary_sentences = sentences[: min(max_sentences, len(sentences))]
    return " ".join(summary_sentences)
```

`re.split(r"(?<=[.!?])\s+", t)` scans `t` left to right and cuts it at every
maximal whitespace run whose first character is immediately preceded by `.`,
`!` or `?`; the matched whitespace is consumed.  This is embedded as a
single-pass automaton over the character list (`splitSentencesAux`): `inSep`
records whether the scan is inside a matched whitespace run, `cur` holds the
current piece in reverse, `done` the completed pieces.  `" ".join` is
embedded as `joinSp`.
-/
/-- The characters matched by the regex class `\s` (whitespace). -/
def isWS (c : Char) : Bool :=
  c == ' ' || c == '\t' || c == '\n' || c == '\r' || c == Char.ofNat 11 || c == Char.ofNat 12

/-- The characters in the lookbehind class `[.!?]`. -/
def isStop (c : Char) : Bool :=
  c == '.' || c == '!' || c == '?'

/-- Is the head of a (reversed) accumulator a stop character?  Used for the
lookbehind: the head of the reversed current piece is the previously scanned
character. -/
def headIsStop : List Char → Bool
  | [] => false
  | c :: _ => isStop c

/-- The splitting automaton for `re.split(r"(?<=[.!?])\s+", ...)`. -/
def splitSentencesAux : List (List Char) → List Char → Bool → List Char → List (List Char)
  | done, cur, _, [] => done ++ [cur.reverse]
  | done, cur, true, c :: rest =>
    if isWS c then splitSentencesAux done cur true rest
    else splitSentencesAux done [c] false rest
  | done, cur, false, c :: rest =>
    if isWS c && headIsStop cur then
      splitSentencesAux (done ++ [cur.reverse]) [] true rest
    else splitSentencesAux done (c :: cur) false rest

/-- Embedding of `re.split(r"(?<=[.!?])\s+", transcript)`. -/
def splitSentences (l : List Char) : List (List Char) :=
  splitSentencesAux [] [] false l

/-- Embedding of `" ".join(pieces)` on character lists. -/
def joinSp : List (List Char) → List Char
  | [] => []
  | [s] => s
  | s :: rest => s ++ ' ' :: joinSp rest

/-- Embedding of `generate_summary`. -/
def generate_summary (transcript : String) (max_sentences : Nat := 2) : String :=
  let sentences := splitSentences transcript.toList
  String.mk (joinSp (sentences.take (Nat.min max_sentences sentences.length)))

/-!
### Structural facts about the sentence splitter, towards idempotence of
`generate_summary` (C9).
-/
/-- No internal split point: no character pair (stop, whitespace) occurs at
adjacent positions. -/
def noSplitPair : List Char → Bool
  | a :: b :: rest => !(isStop a && isWS b) && noSplitPair (b :: rest)
  | _ => true

/-- Is the last character a stop character? -/
def lastIsStop : List Char → Bool
  | [] => false
  | [a] => isStop a
  | _ :: b :: rest => lastIsStop (b :: rest)

/-- Does the list start with a non-whitespace character? -/
def startsNonWS : List Char → Bool
  | [] => false
  | c :: _ => !isWS c

/-- Invariant satisfied by the pieces that the automaton will still emit,
starting mid-scan: every piece except the last is nonempty, free of internal
split points, ends with a stop character; every piece starts with
non-whitespace (the final piece may instead be empty). -/
inductive GoodTail : List (List Char) → Prop
  | last (s : List Char) : noSplitPair s = true → (s = [] ∨ startsNonWS s = true) →
      GoodTail [s]
  | cons (s : List Char) (rest : List (List Char)) : s ≠ [] → startsNonWS s = true →
      noSplitPair s = true → lastIsStop s = true → GoodTail rest → GoodTail (s :: rest)

/-- Invariant satisfied by the full output of the splitter: like `GoodTail`,
except that the first piece may start with whitespace. -/
inductive GoodPieces : List (List Char) → Prop
  | single (s : List Char) : noSplitPair s = true → GoodPieces [s]
  | cons (s : List Char) (rest : List (List Char)) : s ≠ [] → noSplitPair s = true →
      lastIsStop s = true → GoodTail rest → GoodPieces (s :: rest)

/-!
### The Obsidian note composer (`create_obsidian_note`)

```python
    title = metadata.get("title", "Untitled Video")
    uploader = metadata.get("uploader", "Unknown")
    upload_date = format_date(metadata.get("upload_date", ""))
    duration = metadata.get("duration", 0)
    created_date = timestamp.strftime("%Y-%m-%d %H:%M:%S")
    ...
    note_content = f"""---
title: "{title.replace('"', "'")}"
platform: {platform}
creator: "{uploader.replace('"', "'")}"
upload_date: {upload_date}
duration: "{duration_str}"
source_url: "{url}"
created: {created_date}
tags:
  - video-clip
  - {platform}
---

# {title}
...
"""
    filename = timestamp.strftime("%Y-%m-%d-%H-%M-%S-video-clip.md")
```

The metadata record produced by `download_video` (all fields defaulted there)
is the `Metadata` structure.  `timestamp.strftime` on the two fixed patterns
is embedded by `strf_ts` / `created_str` over a broken-down `Timestamp`
(zero-padded decimal fields, as CPython renders them).  The note text is
assembled from the same literal fragments as the f-string; the metadata
header (the YAML block including its closing `---`) and the body are named
separately, their concatenation being the full note text.
-/
/-- The metadata record assembled by `download_video` (each field already
defaulted from the downloader's JSON). -/
structure Metadata where
  title : String
  uploader : String
  upload_date : String
  duration : Nat
  description : String
  view_count : Nat
  like_count : Nat

/-- Embedding of Python's single-character `str.replace(a, b)`. -/
def pyReplace (s : String) (a b : Char) : String :=
  String.mk (s.toList.map fun c => if c = a then b else c)

/-- Embedding of Python's `str.capitalize()`. -/
def pyCapitalize (s : String) : String :=
  match s.toList with
  | [] => ""
  | c :: rest => String.mk (c.toUpper :: rest.map Char.toLower)

/-- A run timestamp, broken down as `datetime` exposes it to `strftime`. -/
structure Timestamp where
  year : Nat
  month : Nat
  day : Nat
  hour : Nat
  minute : Nat
  second : Nat

/-- Embedding of `f"{n:04d}"`-style rendering used by `%Y`. -/
def d04 (n : Nat) : String :=
  let s := toString n
  if s.length < 4 then String.mk (List.replicate (4 - s.length) '0') ++ s else s

/-- Embedding of `timestamp.strftime("%Y-%m-%d-%H-%M-%S")`. -/
def strf_ts (ts : Timestamp) : String :=
  d04 ts.year ++ "-" ++ d02 ts.month ++ "-" ++ d02 ts.day ++ "-" ++
    d02 ts.hour ++ "-" ++ d02 ts.minute ++ "-" ++ d02 ts.second

/-- Embedding of `timestamp.strftime("%Y-%m-%d %H:%M:%S")` (the `created`
field). -/
def created_str (ts : Timestamp) : String :=
  d04 ts.year ++ "-" ++ d02 ts.month ++ "-" ++ d02 ts.day ++ " " ++
    d02 ts.hour ++ ":" ++ d02 ts.minute ++ ":" ++ d02 ts.second

/-- The `title:` line of the YAML header. -/
def titleLine (md : Metadata) : String :=
  "title: \"" ++ pyReplace md.title dquote squote ++ "\""

/-- The `creator:` line of the YAML header. -/
def creatorLine (md : Metadata) : String :=
  "creator: \"" ++ pyReplace md.uploader dquote squote ++ "\""

/-- The note's metadata header: the YAML block of the f-string, including the
closing `---` fence.  `today` is `datetime.now()`'s date inside
`format_date`. -/
def note_frontmatter (url platform : String) (md : Metadata)
    (today created_date : String) : String :=
  "---\n" ++ titleLine md ++
  "\nplatform: " ++ platform ++
  "\n" ++ creatorLine md ++
  "\nupload_date: " ++ format_date md.upload_date today ++
  "\nduration: \"" ++ format_duration md.duration ++
  "\"\nsource_url: \"" ++ url ++
  "\"\ncreated: " ++ created_date ++
  "\ntags:\n  - video-clip\n  - " ++ platform ++ "\n---\n"

/-- The note's body: everything after the YAML header in the f-string. -/
def note_body (url platform : String) (md : Metadata)
    (transcript summary : String) : String :=
  "\n# " ++ md.title ++
  "\n\n## Source\n\n[Watch Original Video](" ++ url ++
  ")\n\n**Platform:** " ++ pyCapitalize platform ++
  "\n**Creator:** " ++ md.uploader ++
  "\n**Duration:** " ++ format_duration md.duration ++
  "\n\n## Summary\n\n" ++ summary ++
  "\n\n## Transcript\n\n" ++ transcript ++ "\n"

/-- The full `note_content` string of `create_obsidian_note`. -/
def note_content (url platform : String) (md : Metadata)
    (transcript summary : String) (today created_date : String) : String :=
  note_frontmatter url platform md today created_date ++
    note_body url platform md transcript summary

/-- Embedding of `filename = timestamp.strftime("%Y-%m-%d-%H-%M-%S-video-clip.md")`. -/
def note_filename (ts : Timestamp) : String :=
  strf_ts ts ++ "-video-clip.md"

/-- Embedding of `file_path = Path(output_dir) / filename`. -/
def note_path (output_dir : String) (ts : Timestamp) : String :=
  output_dir ++ "/" ++ note_filename ts

/-!
### Transcription control flow and the orchestrator (`transcribe_audio`, `main`)

`transcribe_audio`'s repo-owned control flow: probe candidate filesystem
locations for the model file (summarized by the oracle `model_found`); if
none exists raise `FileNotFoundError` with download guidance; otherwise run
the external conversion + transcription engines and return the trimmed
transcript (summarized by the oracle `engine`).

`main` parses CLI arguments, captures one timestamp, runs the stages in
sequence inside `with tempfile.TemporaryDirectory()`, and catches every
exception at top level, printing `Error: ...` to stderr and exiting with
status 1.  It is embedded as a function from the oracles to the list of
externally observable events (stdout progress prints are not modelled).  The
`with` block is modelled by emitting `tmpCreate` on entry and `tmpRemove` on
every exit of the block — normal or exceptional — which is the
context-manager guarantee of `tempfile.TemporaryDirectory`.
-/
def model_file (model_name : String) : String := "ggml-" ++ model_name ++ ".bin"

/-- Embedding of the repo-owned control flow of `transcribe_audio`. -/
def transcribe_audio_model (model_name : String) (model_found : Bool)
    (engine : Except String String) : Except String String :=
  if !model_found then
    Except.error ("Whisper model " ++ squoteStr ++ model_name ++ squoteStr ++
      " not found. Please download it:\n  curl -L -o ~/.cache/whisper-cpp/" ++
      model_file model_name ++
      " https://huggingface.co/ggerganov/whisper.cpp/resolve/main/" ++
      model_file model_name)
  else engine

/-- The CLI arguments accepted by `main`. -/
structure MainArgs where
  url : String
  output_path : String
  model : String
  keep_audio : Bool

/-- Externally observable events of one run. -/
inductive Ev where
  | printErr (s : String)
  | tmpCreate
  | tmpRemove
  | writeNote (path : String) (content : String)
  | copyAudio (dest : String)
  | exitProcess (code : Nat)
deriving DecidableEq

/-- Embedding of `audio_filename = timestamp.strftime("%Y-%m-%d-%H-%M-%S-video-clip.mp3")`. -/
def audio_filename (ts : Timestamp) : String :=
  strf_ts ts ++ "-video-clip.mp3"

def exceptOk {ε α : Type} : Except ε α → Bool
  | Except.ok _ => true
  | Except.error _ => false

/-- Embedding of `main`: the run's event trace, as a function of the CLI
arguments, the captured timestamp and the external oracles (`parsed` =
`urlparse args.url`; `download` = outcome of `download_video`; `model_found`
= whether a candidate model path exists; `engine` = outcome of the external
transcription pipeline; `today` = current date seen by `format_date`). -/
def main_model (args : MainArgs) (ts : Timestamp) (parsed : ParsedUrl)
    (download : Except String (String × Metadata)) (model_found : Bool)
    (engine : Except String String) (today : String) : List Ev :=
  match detect_platform args.url parsed with
  | Except.error e => [Ev.printErr ("Error: " ++ e), Ev.exitProcess 1]
  | Except.ok platform =>
    Ev.tmpCreate ::
    match download with
    | Except.error e => [Ev.tmpRemove, Ev.printErr ("Error: " ++ e), Ev.exitProcess 1]
    | Except.ok (_audio_path, metadata) =>
      match transcribe_audio_model args.model model_found engine with
      | Except.error e => [Ev.tmpRemove, Ev.printErr ("Error: " ++ e), Ev.exitProcess 1]
      | Except.ok transcript =>
        Ev.writeNote (note_path args.output_path ts)
            (note_content args.url platform metadata transcript
              (generate_summary transcript) today (created_str ts)) ::
          (if args.keep_audio then
            [Ev.copyAudio (args.output_path ++ "/" ++ audio_filename ts),
             Ev.tmpRemove, Ev.exitProcess 0]
          else [Ev.tmpRemove, Ev.exitProcess 0])

/-- Whether the scratch directory exists after replaying the event trace. -/
def tmpAlive (evs : List Ev) : Bool :=
  evs.foldl
    (fun b e =>
      match e with
      | Ev.tmpCreate => true
      | Ev.tmpRemove => false
      | _ => b)
    false

/-! ### Theorems -/

theorem isPrefixCL_iff (a b : List Char) :
    isPrefixCL a b = true ↔ ∃ t, a ++ t = b := by
  induction a generalizing b with
  | nil =>
    simp [isPrefixCL]
  | cons x xs ih =>
    cases b with
    | nil => simp [isPrefixCL]
    | cons y ys =>
      simp only [isPrefixCL, Bool.and_eq_true, beq_iff_eq, ih]
      constructor
      · rintro ⟨rfl, t, rfl⟩
        exact ⟨t, rfl⟩
      · rintro ⟨t, h⟩
        injection h with h1 h2
        exact ⟨h1, t, h2⟩

theorem containsCL_iff (n h : List Char) :
    containsCL n h = true ↔ ∃ s t, s ++ n ++ t = h := by
  induction h with
  | nil =>
    simp only [containsCL, isPrefixCL_iff]
    constructor
    · rintro ⟨t, ht⟩
      exact ⟨[], t, by simpa using ht⟩
    · rintro ⟨s, t, hst⟩
      rcases List.append_eq_nil.mp ((List.append_assoc s n t) ▸ hst) with ⟨hs, hnt⟩
      rcases List.append_eq_nil.mp hnt with ⟨hn, ht⟩
      exact ⟨[], by simp [hn]⟩
  | cons c rest ih =>
    simp only [containsCL, Bool.or_eq_true, isPrefixCL_iff, ih]
    constructor
    · rintro (⟨t, ht⟩ | ⟨s, t, hst⟩)
      · exact ⟨[], t, by simpa using ht⟩
      · exact ⟨c :: s, t, by simp [hst]⟩
    · rintro ⟨s, t, hst⟩
      cases s with
      | nil => exact Or.inl ⟨t, by simpa using hst⟩
      | cons x xs =>
        injection hst with h1 h2
        exact Or.inr ⟨xs, t, h2⟩

/-- Substring containment is monotone: if `n₁` occurs inside `n₂` and `n₂`
occurs in `h`, then `n₁` occurs in `h`. -/
theorem containsCL_mono (n₁ n₂ h : List Char) (hsub : ∃ s t, s ++ n₁ ++ t = n₂)
    (hc : containsCL n₂ h = true) : containsCL n₁ h = true := by
  rcases hsub with ⟨s, t, rfl⟩
  rcases (containsCL_iff _ _).mp hc with ⟨u, v, rfl⟩
  exact (containsCL_iff _ _).mpr ⟨u ++ s, t ++ v, by simp⟩

/-- If a string does not contain `"tiktok"`, it does not contain `"tiktok.com"`. -/
theorem strContains_tiktok_com_false {d : String}
    (h : strContains d "tiktok" = false) : strContains d "tiktok.com" = false := by
  cases hc : strContains d "tiktok.com" with
  | false => rfl
  | true =>
    simp only [strContains] at h hc
    exact absurd
      (containsCL_mono "tiktok".toList "tiktok.com".toList d.toList
        ⟨[], ".com".toList, by decide⟩ hc)
      (by simpa using h)

/-- C1: platform detection classifies a URL by its (lowercased) host, in
order: host containing "tiktok" gives `tiktok`; else "youtube.com" or
"youtu.be" gives `youtube`; else "instagram.com" gives `reel` regardless of
the path; otherwise detection fails with an unsupported-platform error
carrying the offending URL. -/
theorem C1_detect_platform_classification (url : String) (p : ParsedUrl) :
    (strContains (pyLower p.netloc) "tiktok" = true →
      detect_platform url p = Except.ok "tiktok") ∧
    (strContains (pyLower p.netloc) "tiktok" = false →
      (strContains (pyLower p.netloc) "youtube.com" = true ∨
       strContains (pyLower p.netloc) "youtu.be" = true) →
      detect_platform url p = Except.ok "youtube") ∧
    (strContains (pyLower p.netloc) "tiktok" = false →
      strContains (pyLower p.netloc) "youtube.com" = false →
      strContains (pyLower p.netloc) "youtu.be" = false →
      strContains (pyLower p.netloc) "instagram.com" = true →
      detect_platform url p = Except.ok "reel") ∧
    (strContains (pyLower p.netloc) "tiktok" = false →
      strContains (pyLower p.netloc) "youtube.com" = false →
      strContains (pyLower p.netloc) "youtu.be" = false →
      strContains (pyLower p.netloc) "instagram.com" = false →
      detect_platform url p =
        Except.error ("Unsupported platform for URL: " ++ url)) := by
  refine ⟨?_, ?_, ?_, ?_⟩
  · intro h
    simp [detect_platform, h]
  · intro h1 h2
    rcases h2 with h2 | h2 <;>
      simp [detect_platform, h1, strContains_tiktok_com_false h1, h2]
  · intro h1 h2 h3 h4
    cases hp : strContains (pyLower p.path) "/reel" <;>
      simp [detect_platform, h1, strContains_tiktok_com_false h1, h2, h3, h4, hp]
  · intro h1 h2 h3 h4
    simp [detect_platform, h1, strContains_tiktok_com_false h1, h2, h3, h4]

theorem C1_detect_platform_classification_witness :
    detect_platform "https://youtu.be/abc" ⟨"youtu.be", "/abc"⟩ = Except.ok "youtube" :=
  (C1_detect_platform_classification "https://youtu.be/abc" ⟨"youtu.be", "/abc"⟩).2.1
    (by decide) (Or.inr (by decide))

/-- C2 counterexample: `"99999999"` is an 8-character string that is not a
well-formed date, yet `format_date` does not fall back to the current date
(here `"2024-01-15"`): it blindly slices the input into `"9999-99-99"`. -/
theorem C2_format_date_counterexample :
    format_date "99999999" "2024-01-15" = "9999-99-99" ∧
    "9999-99-99" ≠ "2024-01-15" :=
  ⟨by decide, by decide⟩

/-- C2 (amended): `format_date` maps `"20230615"` to `"2023-06-15"`; every
input whose length differs from 8 (in particular the empty string) falls back
to the current date; every 8-character input, well-formed date or not, is
sliced into `XXXX-XX-XX` without content validation. -/
theorem C2_format_date_amended (s today : String) :
    format_date "20230615" today = "2023-06-15" ∧
    (s.length ≠ 8 → format_date s today = today) ∧
    (s.length = 8 →
      format_date s today =
        s.take 4 ++ "-" ++ (s.drop 4).take 2 ++ "-" ++ (s.drop 6).take 2) := by
  refine ⟨?_, ?_, ?_⟩
  · have hc : ((!(("20230615" : String) == "")) && (("20230615" : String).length == 8)) = true := by
      decide
    simp only [format_date, hc, if_true]
    decide
  · intro h
    have h8 : (s.length == 8) = false := by simpa using h
    simp [format_date, h8]
  · intro h
    have hne : s ≠ "" := by
      intro e
      rw [e] at h
      simp at h
    have hne' : (s == "") = false := by simpa using hne
    simp [format_date, hne', h]

theorem C2_format_date_amended_witness :
    ("abcdefgh" : String).length = 8 ∧
    format_date "abcdefgh" "2024-01-15" =
      ("abcdefgh" : String).take 4 ++ "-" ++ (("abcdefgh" : String).drop 4).take 2 ++
        "-" ++ (("abcdefgh" : String).drop 6).take 2 ∧
    ("" : String).length ≠ 8 ∧
    format_date "" "2024-01-15" = "2024-01-15" :=
  ⟨by decide, (C2_format_date_amended "abcdefgh" "2024-01-15").2.2 (by decide),
   by decide, (C2_format_date_amended "" "2024-01-15").2.1 (by decide)⟩

/-- C3: the note composer's duration formatting yields `"02:05"` for 125s,
`"01:02:05"` for 3725s, `"Unknown"` for 0; and for every positive duration the
result is in `HH:MM:SS` shape exactly when the duration is at least one hour
(3600s) and in `MM:SS` shape otherwise. -/
theorem C3_duration_formatting (d : Nat) :
    format_duration 125 = "02:05" ∧
    format_duration 3725 = "01:02:05" ∧
    format_duration 0 = "Unknown" ∧
    (3600 ≤ d →
      format_duration d =
        d02 (d / 3600) ++ ":" ++ d02 (d % 3600 / 60) ++ ":" ++ d02 (d % 3600 % 60)) ∧
    (0 < d → d < 3600 →
      format_duration d = d02 (d / 60) ++ ":" ++ d02 (d % 60)) := by
  refine ⟨by decide, by decide, by decide, ?_, ?_⟩
  · intro h
    have hd : (d != 0) = true := by simp; omega
    have hpos : 0 < d / 3600 := Nat.div_pos h (by norm_num)
    have hh : (d / 3600 != 0) = true := by simp; omega
    simp [format_duration, hd, hh]
  · intro h0 h36
    have hd : (d != 0) = true := by simp; omega
    have hdiv : d / 3600 = 0 := Nat.div_eq_of_lt h36
    have hh : (d / 3600 != 0) = false := by simp [hdiv]
    have r1 : d % 3600 = d := Nat.mod_eq_of_lt h36
    simp [format_duration, hd, hh, r1]

theorem C3_duration_formatting_witness :
    (3600 ≤ 3725 ∧
      format_duration 3725 =
        d02 (3725 / 3600) ++ ":" ++ d02 (3725 % 3600 / 60) ++ ":" ++ d02 (3725 % 3600 % 60)) ∧
    (0 < 125 ∧ 125 < 3600 ∧
      format_duration 125 = d02 (125 / 60) ++ ":" ++ d02 (125 % 60)) :=
  ⟨⟨by decide, (C3_duration_formatting 3725).2.2.2.1 (by decide)⟩,
   ⟨by decide, by decide, (C3_duration_formatting 125).2.2.2.2 (by decide) (by decide)⟩⟩

theorem natMin_eq (a b : Nat) : Nat.min a b = min a b := rfl

theorem take_nat_min (l : List (List Char)) (n : Nat) :
    l.take (Nat.min n l.length) = l.take n := by
  by_cases h : n ≤ l.length
  · rw [natMin_eq, show min n l.length = n by omega]
  · rw [natMin_eq, show min n l.length = l.length by omega, List.take_length]
    exact (List.take_of_length_le (by omega)).symm

/-- C4: the summarizer splits the transcript at whitespace runs preceded by
`.`, `!` or `?`, keeps the first `n` sentences and rejoins them with single
spaces; the given example yields "Hello world. This is a test." and the empty
transcript yields the empty summary. -/
theorem C4_generate_summary_split_take_join (t : String) (n : Nat) :
    generate_summary "Hello world. This is a test. And more." 2 =
      "Hello world. This is a test." ∧
    generate_summary "" n = "" ∧
    generate_summary t n =
      String.mk (joinSp ((splitSentences t.toList).take n)) := by
  refine ⟨by decide, ?_, ?_⟩
  · show String.mk (joinSp ((splitSentences ("" : String).toList).take
      (Nat.min n (splitSentences ("" : String).toList).length))) = ""
    rw [show splitSentences ("" : String).toList = [[]] from rfl]
    cases n with
    | zero => rfl
    | succ m =>
      rw [show Nat.min (m + 1) ([[]] : List (List Char)).length = 1 by
        rw [show ([[]] : List (List Char)).length = 1 from rfl, natMin_eq]
        omega]
      rfl
  · show String.mk (joinSp ((splitSentences t.toList).take
      (Nat.min n (splitSentences t.toList).length))) = _
    rw [take_nat_min]

theorem C4_generate_summary_split_take_join_witness :
    generate_summary "One. Two. Three." 2 =
      String.mk (joinSp ((splitSentences ("One. Two. Three." : String).toList).take 2)) :=
  (C4_generate_summary_split_take_join "One. Two. Three." 2).2.2

theorem lastIsStop_snoc (l : List Char) (c : Char) :
    lastIsStop (l ++ [c]) = isStop c := by
  induction l with
  | nil => rfl
  | cons a l ih =>
    cases l with
    | nil => rfl
    | cons b r => simpa [lastIsStop] using ih

theorem noSplitPair_snoc (l : List Char) (c : Char) :
    noSplitPair (l ++ [c]) = (noSplitPair l && !(lastIsStop l && isWS c)) := by
  induction l with
  | nil => rfl
  | cons a l ih =>
    cases l with
    | nil => simp [noSplitPair, lastIsStop]
    | cons b r =>
      simp only [List.cons_append] at ih ⊢
      rw [show noSplitPair (a :: b :: (r ++ [c])) =
            (!(isStop a && isWS b) && noSplitPair (b :: (r ++ [c]))) from rfl,
          ih,
          show noSplitPair (a :: b :: r) =
            (!(isStop a && isWS b) && noSplitPair (b :: r)) from rfl,
          show lastIsStop (a :: b :: r) = lastIsStop (b :: r) from rfl]
      cases h : (!(isStop a && isWS b)) <;> simp

theorem headIsStop_append_left {xs : List Char} (ys : List Char) (h : xs ≠ []) :
    headIsStop (xs ++ ys) = headIsStop xs := by
  cases xs with
  | nil => exact absurd rfl h
  | cons a r => rfl

theorem startsNonWS_append_left {xs : List Char} (ys : List Char) (h : xs ≠ []) :
    startsNonWS (xs ++ ys) = startsNonWS xs := by
  cases xs with
  | nil => exact absurd rfl h
  | cons a r => rfl

theorem headIsStop_reverse (l : List Char) :
    headIsStop l.reverse = lastIsStop l := by
  induction l with
  | nil => rfl
  | cons a l ih =>
    cases l with
    | nil => rfl
    | cons b r =>
      rw [show lastIsStop (a :: b :: r) = lastIsStop (b :: r) from rfl, ← ih]
      rw [show (a :: b :: r).reverse = (b :: r).reverse ++ [a] by simp]
      exact headIsStop_append_left [a] (by simp)

theorem lastIsStop_reverse (l : List Char) :
    lastIsStop l.reverse = headIsStop l := by
  rw [← headIsStop_reverse l.reverse, List.reverse_reverse]

theorem noSplitPair_prefix_of_append {l₁ l₂ : List Char}
    (h : noSplitPair (l₁ ++ l₂) = true) : noSplitPair l₁ = true := by
  induction l₁ with
  | nil => rfl
  | cons a l ih =>
    cases l with
    | nil => rfl
    | cons b r =>
      simp only [List.cons_append, noSplitPair, Bool.and_eq_true] at h ⊢
      exact ⟨h.1, ih h.2⟩

theorem noSplitPair_single (c : Char) : noSplitPair [c] = true := rfl

/-- The completed pieces accumulated in `done` pass through the automaton
untouched. -/
theorem splitAux_append (l : List Char) : ∀ (done : List (List Char)) (cur : List Char)
    (b : Bool), splitSentencesAux done cur b l = done ++ splitSentencesAux [] cur b l := by
  induction l with
  | nil => intro done cur b; cases b <;> simp [splitSentencesAux]
  | cons c rest ih =>
    intro done cur b
    cases b with
    | true =>
      by_cases hw : isWS c = true
      · rw [show splitSentencesAux done cur true (c :: rest) =
            splitSentencesAux done cur true rest by simp [splitSentencesAux, hw],
          show splitSentencesAux [] cur true (c :: rest) =
            splitSentencesAux [] cur true rest by simp [splitSentencesAux, hw]]
        exact ih done cur true
      · rw [show splitSentencesAux done cur true (c :: rest) =
            splitSentencesAux done [c] false rest by simp [splitSentencesAux, hw],
          show splitSentencesAux [] cur true (c :: rest) =
            splitSentencesAux [] [c] false rest by simp [splitSentencesAux, hw]]
        exact ih done [c] false
    | false =>
      by_cases hc : (isWS c && headIsStop cur) = true
      · rw [show splitSentencesAux done cur false (c :: rest) =
            splitSentencesAux (done ++ [cur.reverse]) [] true rest by
              simp [splitSentencesAux, hc],
          show splitSentencesAux [] cur false (c :: rest) =
            splitSentencesAux [cur.reverse] [] true rest by simp [splitSentencesAux, hc]]
        rw [ih (done ++ [cur.reverse]) [] true, ih [cur.reverse] [] true]
        simp
      · rw [show splitSentencesAux done cur false (c :: rest) =
            splitSentencesAux done (c :: cur) false rest by simp [splitSentencesAux, hc],
          show splitSentencesAux [] cur false (c :: rest) =
            splitSentencesAux [] (c :: cur) false rest by simp [splitSentencesAux, hc]]
        exact ih done (c :: cur) false

/-- Scanning a block `s` with no internal split point (relative to the
accumulated `cur`) just accumulates it. -/
theorem splitAux_run (s : List Char) : ∀ (cur t : List Char) (done : List (List Char)),
    noSplitPair (cur.reverse ++ s) = true →
    splitSentencesAux done cur false (s ++ t) =
      splitSentencesAux done (s.reverse ++ cur) false t := by
  induction s with
  | nil => intro cur t done _; simp
  | cons c s' ih =>
    intro cur t done h
    have hjun : noSplitPair (cur.reverse ++ [c]) = true := by
      have : cur.reverse ++ (c :: s') = (cur.reverse ++ [c]) ++ s' := by simp
      rw [this] at h
      exact noSplitPair_prefix_of_append h
    have hcond : (isWS c && headIsStop cur) = false := by
      rw [noSplitPair_snoc] at hjun
      have h2 : (!(lastIsStop cur.reverse && isWS c)) = true :=
        (Bool.and_eq_true _ _ |>.mp hjun).2
      rw [show headIsStop cur = lastIsStop cur.reverse from (lastIsStop_reverse cur).symm]
      cases hws : isWS c <;> cases hst : lastIsStop cur.reverse <;> simp_all
    rw [show (c :: s') ++ t = c :: (s' ++ t) from rfl,
      show splitSentencesAux done cur false (c :: (s' ++ t)) =
          splitSentencesAux done (c :: cur) false (s' ++ t) by
        simp [splitSentencesAux, hcond]]
    rw [ih (c :: cur) t done (by
      have : (c :: cur).reverse ++ s' = cur.reverse ++ (c :: s') := by simp
      rw [this]
      exact h)]
    congr 1
    simp

/-- Starting from the separator-consuming state on input that is empty or
starts with non-whitespace is the same as starting fresh. -/
theorem splitAux_sep_eq (t : List Char) (done : List (List Char))
    (h : t = [] ∨ startsNonWS t = true) :
    splitSentencesAux done [] true t = splitSentencesAux done [] false t := by
  cases t with
  | nil => rfl
  | cons c rest =>
    rcases h with h | h
    · exact absurd h (by simp)
    · have hw : isWS c = false := by
        simpa [startsNonWS] using h
      simp [splitSentencesAux, hw, headIsStop]

/-- The splitter's output, resumed mid-scan with a nonempty current piece
that starts with non-whitespace, satisfies `GoodTail`; resumed inside a
separator it also satisfies `GoodTail`. -/
theorem splitAux_good (l : List Char) :
    (∀ cur : List Char, cur ≠ [] → noSplitPair cur.reverse = true →
        startsNonWS cur.reverse = true →
        GoodTail (splitSentencesAux [] cur false l)) ∧
    GoodTail (splitSentencesAux [] [] true l) := by
  induction l with
  | nil =>
    constructor
    · intro cur hne hns hst
      rw [show splitSentencesAux [] cur false [] = [cur.reverse] from rfl]
      exact GoodTail.last _ hns (Or.inr hst)
    · exact GoodTail.last _ rfl (Or.inl rfl)
  | cons c rest ih =>
    constructor
    · intro cur hne hns hst
      by_cases hc : (isWS c && headIsStop cur) = true
      · rw [show splitSentencesAux [] cur false (c :: rest) =
            splitSentencesAux [cur.reverse] [] true rest by simp [splitSentencesAux, hc]]
        rw [splitAux_append rest [cur.reverse] [] true]
        have hcurne : cur.reverse ≠ [] := by simpa using hne
        have hlast : lastIsStop cur.reverse = true := by
          rw [lastIsStop_reverse]
          exact (Bool.and_eq_true _ _ |>.mp hc).2
        exact GoodTail.cons _ _ hcurne hst hns hlast ih.2
      · rw [show splitSentencesAux [] cur false (c :: rest) =
            splitSentencesAux [] (c :: cur) false rest by simp [splitSentencesAux, hc]]
        apply ih.1 (c :: cur) (by simp)
        · rw [show (c :: cur).reverse = cur.reverse ++ [c] by simp, noSplitPair_snoc, hns,
            lastIsStop_reverse]
          cases hw : isWS c <;> cases hh : headIsStop cur <;> simp_all
        · rw [show (c :: cur).reverse = cur.reverse ++ [c] by simp,
            startsNonWS_append_left [c] (by simpa using hne)]
          exact hst
    · by_cases hw : isWS c = true
      · rw [show splitSentencesAux [] [] true (c :: rest) =
            splitSentencesAux [] [] true rest by simp [splitSentencesAux, hw]]
        exact ih.2
      · rw [show splitSentencesAux [] [] true (c :: rest) =
            splitSentencesAux [] [c] false rest by simp [splitSentencesAux, hw]]
        apply ih.1 [c] (by simp) (noSplitPair_single c)
        simpa [startsNonWS] using hw

/-- The splitter's output, resumed mid-scan on the very first piece (which
may start with whitespace), satisfies `GoodPieces`. -/
theorem splitAux_good_head (l : List Char) : ∀ cur : List Char,
    noSplitPair cur.reverse = true →
    GoodPieces (splitSentencesAux [] cur false l) := by
  induction l with
  | nil =>
    intro cur hns
    exact GoodPieces.single _ hns
  | cons c rest ih =>
    intro cur hns
    by_cases hc : (isWS c && headIsStop cur) = true
    · rw [show splitSentencesAux [] cur false (c :: rest) =
          splitSentencesAux [cur.reverse] [] true rest by simp [splitSentencesAux, hc]]
      rw [splitAux_append rest [cur.reverse] [] true]
      have hcurne : cur.reverse ≠ [] := by
        rcases (Bool.and_eq_true _ _).mp hc with ⟨_, hh⟩
        cases cur with
        | nil => simp [headIsStop] at hh
        | cons a r => simp
      have hlast : lastIsStop cur.reverse = true := by
        rw [lastIsStop_reverse]
        exact (Bool.and_eq_true _ _ |>.mp hc).2
      exact GoodPieces.cons _ _ hcurne hns hlast (splitAux_good rest).2
    · rw [show splitSentencesAux [] cur false (c :: rest) =
          splitSentencesAux [] (c :: cur) false rest by simp [splitSentencesAux, hc]]
      apply ih (c :: cur)
      rw [show (c :: cur).reverse = cur.reverse ++ [c] by simp, noSplitPair_snoc, hns,
        lastIsStop_reverse]
      cases hw : isWS c <;> cases hh : headIsStop cur <;> simp_all

/-- The full output of the sentence splitter satisfies `GoodPieces`. -/
theorem splitSentences_good (l : List Char) : GoodPieces (splitSentences l) :=
  splitAux_good_head l [] rfl

theorem GoodTail_ne_nil {ss : List (List Char)} (h : GoodTail ss) : ss ≠ [] := by
  cases h <;> simp

theorem joinSp_cons_of_ne_nil (s : List Char) {rest : List (List Char)} (h : rest ≠ []) :
    joinSp (s :: rest) = s ++ ' ' :: joinSp rest := by
  cases rest with
  | nil => exact absurd rfl h
  | cons r rs => rfl

theorem GoodTail_joinSp_start {ss : List (List Char)} (h : GoodTail ss) :
    joinSp ss = [] ∨ startsNonWS (joinSp ss) = true := by
  cases h with
  | last s hno hst =>
    rcases hst with rfl | hst
    · exact Or.inl rfl
    · exact Or.inr (by rw [show joinSp [s] = s from rfl]; exact hst)
  | cons s rest hne hst hno hlast htail =>
    right
    rw [joinSp_cons_of_ne_nil s (GoodTail_ne_nil htail), startsNonWS_append_left _ hne]
    exact hst

theorem GoodTail_take {ss : List (List Char)} (h : GoodTail ss) :
    ∀ k, 1 ≤ k → GoodTail (ss.take k) := by
  induction h with
  | last s hno hst =>
    intro k hk
    rw [List.take_of_length_le (by simpa using hk)]
    exact GoodTail.last s hno hst
  | cons s rest hne hst hno hlast htail ih =>
    intro k hk
    match k, hk with
    | 1, _ =>
      rw [show (s :: rest).take 1 = [s] from by simp]
      exact GoodTail.last s hno (Or.inr hst)
    | (m + 2), _ =>
      rw [show (s :: rest).take (m + 2) = s :: rest.take (m + 1) from rfl]
      exact GoodTail.cons s _ hne hst hno hlast (ih (m + 1) (by omega))

theorem GoodPieces_take {ss : List (List Char)} (h : GoodPieces ss) :
    ∀ k, 1 ≤ k → GoodPieces (ss.take k) := by
  cases h with
  | single s hno =>
    intro k hk
    rw [List.take_of_length_le (by simpa using hk)]
    exact GoodPieces.single s hno
  | cons s rest hne hno hlast htail =>
    intro k hk
    match k, hk with
    | 1, _ =>
      rw [show (s :: rest).take 1 = [s] from by simp]
      exact GoodPieces.single s hno
    | (m + 2), _ =>
      rw [show (s :: rest).take (m + 2) = s :: rest.take (m + 1) from rfl]
      exact GoodPieces.cons s _ hne hno hlast (GoodTail_take htail (m + 1) (by omega))

/-- Scanning a block with no internal split point to the end of the input
emits it as the final piece. -/
theorem splitAux_run_all (s : List Char) (done : List (List Char)) (cur : List Char)
    (h : noSplitPair (cur.reverse ++ s) = true) :
    splitSentencesAux done cur false s = done ++ [cur.reverse ++ s] := by
  have h2 := splitAux_run s cur [] done h
  rw [List.append_nil] at h2
  rw [h2, show splitSentencesAux done (s.reverse ++ cur) false [] =
      done ++ [(s.reverse ++ cur).reverse] from rfl]
  simp

/-- Re-splitting the space-join of a `GoodTail` list of pieces recovers the
pieces. -/
theorem split_join_tail {ss : List (List Char)} (h : GoodTail ss) :
    splitSentencesAux [] [] false (joinSp ss) = ss := by
  induction h with
  | last s hno hst =>
    rw [show joinSp [s] = s from rfl,
      splitAux_run_all s [] [] (by simpa using hno)]
    simp
  | cons s rest hne hst hno hlast htail ih =>
    rw [joinSp_cons_of_ne_nil s (GoodTail_ne_nil htail),
      splitAux_run s [] (' ' :: joinSp rest) [] (by simpa using hno),
      List.append_nil]
    have hcond : (isWS ' ' && headIsStop s.reverse) = true := by
      rw [show headIsStop s.reverse = lastIsStop s from headIsStop_reverse s, hlast]
      rfl
    rw [show splitSentencesAux [] s.reverse false (' ' :: joinSp rest) =
        splitSentencesAux ([] ++ [s.reverse.reverse]) [] true (joinSp rest) by
          simp [splitSentencesAux, hcond],
      List.reverse_reverse, List.nil_append,
      splitAux_append (joinSp rest) [s] [] true,
      splitAux_sep_eq (joinSp rest) [] (GoodTail_joinSp_start htail), ih]
    rfl

/-- Re-splitting the space-join of a `GoodPieces` list of pieces recovers the
pieces. -/
theorem split_join {ss : List (List Char)} (h : GoodPieces ss) :
    splitSentences (joinSp ss) = ss := by
  cases h with
  | single s hno =>
    show splitSentencesAux [] [] false (joinSp [s]) = [s]
    rw [show joinSp [s] = s from rfl, splitAux_run_all s [] [] (by simpa using hno)]
    simp
  | cons s rest hne hno hlast htail =>
    show splitSentencesAux [] [] false (joinSp (s :: rest)) = s :: rest
    rw [joinSp_cons_of_ne_nil s (GoodTail_ne_nil htail),
      splitAux_run s [] (' ' :: joinSp rest) [] (by simpa using hno),
      List.append_nil]
    have hcond : (isWS ' ' && headIsStop s.reverse) = true := by
      rw [show headIsStop s.reverse = lastIsStop s from headIsStop_reverse s, hlast]
      rfl
    rw [show splitSentencesAux [] s.reverse false (' ' :: joinSp rest) =
        splitSentencesAux ([] ++ [s.reverse.reverse]) [] true (joinSp rest) by
          simp [splitSentencesAux, hcond],
      List.reverse_reverse, List.nil_append,
      splitAux_append (joinSp rest) [s] [] true,
      splitAux_sep_eq (joinSp rest) [] (GoodTail_joinSp_start htail),
      split_join_tail htail]
    rfl

theorem toList_mk (l : List Char) : (String.mk l).toList = l := rfl

/-- C9: the summarizer is idempotent — applying `generate_summary` to its own
output with the same sentence bound returns that output unchanged. -/
theorem C9_generate_summary_idempotent (t : String) (n : Nat) :
    generate_summary (generate_summary t n) n = generate_summary t n := by
  cases n with
  | zero =>
    have h0 : ∀ s : String, generate_summary s 0 = "" := by
      intro s
      show String.mk (joinSp ((splitSentences s.toList).take
        (Nat.min 0 (splitSentences s.toList).length))) = ""
      rw [show Nat.min 0 (splitSentences s.toList).length = 0 by rw [natMin_eq]; omega]
      rfl
    rw [h0, h0]
  | succ m =>
    have hgood : GoodPieces (splitSentences t.toList) := splitSentences_good t.toList
    revert hgood
    simp only [generate_summary, toList_mk]
    generalize splitSentences t.toList = ss
    intro hgood
    have hne : ss ≠ [] := by cases hgood <;> simp
    have hlen : 1 ≤ ss.length := List.length_pos.mpr hne
    have hk1 : 1 ≤ Nat.min (m + 1) ss.length := by rw [natMin_eq]; omega
    have htake := GoodPieces_take hgood _ hk1
    rw [split_join htake]
    have hlen2 : (ss.take (Nat.min (m + 1) ss.length)).length =
        Nat.min (m + 1) ss.length := by
      simp only [List.length_take, natMin_eq]
      omega
    rw [hlen2]
    rw [show Nat.min (m + 1) (Nat.min (m + 1) ss.length) = Nat.min (m + 1) ss.length by
      simp only [natMin_eq]; omega]
    rw [List.take_of_length_le (le_of_eq hlen2)]

theorem toList_append (a b : String) : (a ++ b).toList = a.toList ++ b.toList := by
  cases a with
  | mk la =>
    cases b with
    | mk lb => rfl

/-- A middle factor of a string concatenation is a substring. -/
theorem strContains_mid (a b c : String) : strContains (a ++ b ++ c) b = true := by
  show containsCL b.toList (a ++ b ++ c).toList = true
  exact (containsCL_iff _ _).mpr
    ⟨a.toList, c.toList, by simp [toList_append]⟩

/-- Replacing every double quote by a single quote leaves no double quote. -/
theorem pyReplace_no_dquote (s : String) :
    ∀ c ∈ (pyReplace s dquote squote).toList, c ≠ dquote := by
  intro c hc
  simp only [pyReplace, toList_mk, List.mem_map] at hc
  rcases hc with ⟨a, ha, rfl⟩
  by_cases h : a = dquote
  · simpa [h] using (by decide : squote ≠ dquote)
  · simp only [if_neg h]
    exact h

/-- C7: in the note's metadata header, the title and uploader are embedded
with every double quote replaced by a single quote: the embedded strings
contain no double quote, the header contains exactly the sanitized forms
inside its `title:`/`creator:` lines, and the concrete title
`He said "hi"` is rendered as `He said 'hi'`. -/
theorem C7_frontmatter_quote_replacement (url platform : String) (md : Metadata)
    (today created_date : String) :
    (∀ c ∈ (pyReplace md.title dquote squote).toList, c ≠ dquote) ∧
    (∀ c ∈ (pyReplace md.uploader dquote squote).toList, c ≠ dquote) ∧
    strContains (note_frontmatter url platform md today created_date)
      (titleLine md) = true ∧
    strContains (note_frontmatter url platform md today created_date)
      (creatorLine md) = true ∧
    pyReplace ("He said " ++ String.singleton dquote ++ "hi" ++ String.singleton dquote)
        dquote squote =
      "He said " ++ squoteStr ++ "hi" ++ squoteStr ∧
    strContains
      (note_frontmatter url platform
        { md with title := "He said " ++ String.singleton dquote ++ "hi" ++
            String.singleton dquote }
        today created_date)
      ("He said " ++ squoteStr ++ "hi" ++ squoteStr) = true := by
  refine ⟨pyReplace_no_dquote md.title, pyReplace_no_dquote md.uploader, ?_, ?_, by decide, ?_⟩
  · rw [show note_frontmatter url platform md today created_date =
        "---\n" ++ titleLine md ++
          ("\nplatform: " ++ platform ++ "\n" ++ creatorLine md ++
            "\nupload_date: " ++ format_date md.upload_date today ++
            "\nduration: \"" ++ format_duration md.duration ++
            "\"\nsource_url: \"" ++ url ++
            "\"\ncreated: " ++ created_date ++
            "\ntags:\n  - video-clip\n  - " ++ platform ++ "\n---\n") by
      simp [note_frontmatter, String.append_assoc]]
    exact strContains_mid _ _ _
  · rw [show note_frontmatter url platform md today created_date =
        ("---\n" ++ titleLine md ++ "\nplatform: " ++ platform ++ "\n") ++
          creatorLine md ++
          ("\nupload_date: " ++ format_date md.upload_date today ++
            "\nduration: \"" ++ format_duration md.duration ++
            "\"\nsource_url: \"" ++ url ++
            "\"\ncreated: " ++ created_date ++
            "\ntags:\n  - video-clip\n  - " ++ platform ++ "\n---\n") by
      simp [note_frontmatter, String.append_assoc]]
    exact strContains_mid _ _ _
  · rw [show note_frontmatter url platform
        { md with title := "He said " ++ String.singleton dquote ++ "hi" ++
            String.singleton dquote }
        today created_date =
        ("---\n" ++ "title: \"") ++
          ("He said " ++ squoteStr ++ "hi" ++ squoteStr) ++
          ("\"" ++ "\nplatform: " ++ platform ++ "\n" ++
            creatorLine md ++
            "\nupload_date: " ++ format_date md.upload_date today ++
            "\nduration: \"" ++ format_duration md.duration ++
            "\"\nsource_url: \"" ++ url ++
            "\"\ncreated: " ++ created_date ++
            "\ntags:\n  - video-clip\n  - " ++ platform ++ "\n---\n") by
      simp [note_frontmatter, titleLine, creatorLine, String.append_assoc]
      rfl]
    exact strContains_mid _ _ _

theorem C7_frontmatter_quote_replacement_witness :
    strContains
      (note_frontmatter "u" "tiktok"
        { title := "He said " ++ String.singleton dquote ++ "hi" ++ String.singleton dquote,
          uploader := "U", upload_date := "", duration := 0, description := "",
          view_count := 0, like_count := 0 }
        "2024-01-15" "2024-01-15 10:00:00")
      ("He said " ++ squoteStr ++ "hi" ++ squoteStr) = true := by
  have h := (C7_frontmatter_quote_replacement "u" "tiktok"
    { title := "x", uploader := "U", upload_date := "", duration := 0, description := "",
      view_count := 0, like_count := 0 }
    "2024-01-15" "2024-01-15 10:00:00").2.2.2.2.2
  simpa using h

/-- A character of a substring is a character of the containing string. -/
theorem mem_of_strContains {hay needle : String} (h : strContains hay needle = true)
    {c : Char} (hc : c ∈ needle.toList) : c ∈ hay.toList := by
  rcases (containsCL_iff _ _).mp h with ⟨s, t, heq⟩
  rw [← heq]
  simp only [List.mem_append]
  exact Or.inl (Or.inr hc)

/-- C10: the quote sanitization applies only to the metadata header — the
body's Markdown heading embeds the title verbatim and the Creator line embeds
the uploader verbatim, so a double quote in either still appears in the body
(and hence in the full rendered note). -/
theorem C10_body_embeds_verbatim (url platform : String) (md : Metadata)
    (transcript summary : String) (today created_date : String) :
    strContains (note_body url platform md transcript summary)
      ("# " ++ md.title) = true ∧
    strContains (note_body url platform md transcript summary)
      ("**Creator:** " ++ md.uploader) = true ∧
    (dquote ∈ md.title.toList →
      dquote ∈ (note_body url platform md transcript summary).toList) ∧
    (dquote ∈ md.uploader.toList →
      dquote ∈ (note_body url platform md transcript summary).toList) ∧
    (dquote ∈ md.title.toList →
      dquote ∈ (note_content url platform md transcript summary
        today created_date).toList) := by
  have hd1 : note_body url platform md transcript summary =
      "\n" ++ ("# " ++ md.title) ++
        ("\n\n## Source\n\n[Watch Original Video](" ++ url ++
          ")\n\n**Platform:** " ++ pyCapitalize platform ++
          "\n**Creator:** " ++ md.uploader ++
          "\n**Duration:** " ++ format_duration md.duration ++
          "\n\n## Summary\n\n" ++ summary ++
          "\n\n## Transcript\n\n" ++ transcript ++ "\n") := by
    simp only [note_body, String.append_assoc]
    rfl
  have hd2 : note_body url platform md transcript summary =
      ("\n# " ++ md.title ++ "\n\n## Source\n\n[Watch Original Video](" ++ url ++
        ")\n\n**Platform:** " ++ pyCapitalize platform ++ "\n") ++
        ("**Creator:** " ++ md.uploader) ++
        ("\n**Duration:** " ++ format_duration md.duration ++
          "\n\n## Summary\n\n" ++ summary ++
          "\n\n## Transcript\n\n" ++ transcript ++ "\n") := by
    simp only [note_body, String.append_assoc]
    rfl
  have h1 : strContains (note_body url platform md transcript summary)
      ("# " ++ md.title) = true := by
    rw [hd1]
    exact strContains_mid _ _ _
  have h2 : strContains (note_body url platform md transcript summary)
      ("**Creator:** " ++ md.uploader) = true := by
    rw [hd2]
    exact strContains_mid _ _ _
  have h3 : dquote ∈ md.title.toList →
      dquote ∈ (note_body url platform md transcript summary).toList := by
    intro hdq
    exact mem_of_strContains h1 (by rw [toList_append]; exact List.mem_append_right _ hdq)
  refine ⟨h1, h2, h3, ?_, ?_⟩
  · intro hdq
    exact mem_of_strContains h2 (by rw [toList_append]; exact List.mem_append_right _ hdq)
  · intro hdq
    show dquote ∈ (note_frontmatter url platform md today created_date ++
      note_body url platform md transcript summary).toList
    rw [toList_append]
    exact List.mem_append_right _ (h3 hdq)

theorem C10_body_embeds_verbatim_witness :
    dquote ∈ (note_body "u" "youtube"
      { title := "He said " ++ String.singleton dquote ++ "hi" ++ String.singleton dquote,
        uploader := "U", upload_date := "", duration := 0, description := "",
        view_count := 0, like_count := 0 }
      "tr" "sm").toList :=
  (C10_body_embeds_verbatim "u" "youtube"
    { title := "He said " ++ String.singleton dquote ++ "hi" ++ String.singleton dquote,
      uploader := "U", upload_date := "", duration := 0, description := "",
      view_count := 0, like_count := 0 }
    "tr" "sm" "2024-01-15" "c").2.2.1 (by decide)

/-- C5: runs are all-or-nothing — if platform detection, acquisition, model
lookup or transcription fails, no note is written, an error is printed to
stderr and the process exits 1 (never 0); and a note is written only when
every one of those stages succeeded. -/
theorem C5_all_or_nothing (args : MainArgs) (ts : Timestamp) (parsed : ParsedUrl)
    (download : Except String (String × Metadata)) (model_found : Bool)
    (engine : Except String String) (today : String) :
    ((exceptOk (detect_platform args.url parsed) = false ∨ exceptOk download = false ∨
        model_found = false ∨ exceptOk engine = false) →
      (∀ p c, Ev.writeNote p c ∉
          main_model args ts parsed download model_found engine today) ∧
      Ev.exitProcess 1 ∈ main_model args ts parsed download model_found engine today ∧
      (∃ m, Ev.printErr m ∈
          main_model args ts parsed download model_found engine today) ∧
      Ev.exitProcess 0 ∉ main_model args ts parsed download model_found engine today) ∧
    ((∃ p c, Ev.writeNote p c ∈
        main_model args ts parsed download model_found engine today) →
      exceptOk (detect_platform args.url parsed) = true ∧ exceptOk download = true ∧
        model_found = true ∧ exceptOk engine = true) := by
  cases hdet : detect_platform args.url parsed with
  | error e =>
    constructor
    · intro _
      refine ⟨?_, ?_, ⟨"Error: " ++ e, ?_⟩, ?_⟩ <;> simp [main_model, hdet]
    · rintro ⟨p, c, hp⟩
      simp [main_model, hdet] at hp
  | ok platform =>
    cases hdl : download with
    | error e =>
      constructor
      · intro _
        refine ⟨?_, ?_, ⟨"Error: " ++ e, ?_⟩, ?_⟩ <;> simp [main_model, hdet, hdl]
      · rintro ⟨p, c, hp⟩
        simp [main_model, hdet, hdl] at hp
    | ok pr =>
      obtain ⟨audio, md⟩ := pr
      cases hmf : model_found with
      | false =>
        have htr : transcribe_audio_model args.model false engine =
            Except.error ("Whisper model " ++ squoteStr ++ args.model ++ squoteStr ++
              " not found. Please download it:\n  curl -L -o ~/.cache/whisper-cpp/" ++
              model_file args.model ++
              " https://huggingface.co/ggerganov/whisper.cpp/resolve/main/" ++
              model_file args.model) := by
          simp [transcribe_audio_model]
        constructor
        · intro _
          refine ⟨?_, ?_,
            ⟨"Error: " ++ ("Whisper model " ++ squoteStr ++ args.model ++ squoteStr ++
              " not found. Please download it:\n  curl -L -o ~/.cache/whisper-cpp/" ++
              model_file args.model ++
              " https://huggingface.co/ggerganov/whisper.cpp/resolve/main/" ++
              model_file args.model), ?_⟩, ?_⟩ <;> simp [main_model, hdet, hdl, htr]
        · rintro ⟨p, c, hp⟩
          simp [main_model, hdet, hdl, htr] at hp
      | true =>
        cases heng : engine with
        | error e =>
          have htr : transcribe_audio_model args.model true (Except.error e) =
              Except.error e := by simp [transcribe_audio_model]
          constructor
          · intro _
            refine ⟨?_, ?_, ⟨"Error: " ++ e, ?_⟩, ?_⟩ <;> simp [main_model, hdet, hdl, htr]
          · rintro ⟨p, c, hp⟩
            simp [main_model, hdet, hdl, htr] at hp
        | ok transcript =>
          have htr : transcribe_audio_model args.model true (Except.ok transcript) =
              Except.ok transcript := by simp [transcribe_audio_model]
          constructor
          · rintro (h | h | h | h) <;> simp [exceptOk, hdet, hdl, heng] at h
          · intro _
            refine ⟨?_, ?_, rfl, ?_⟩ <;> simp [exceptOk, hdet, hdl, heng]

theorem C5_all_or_nothing_witness :
    Ev.exitProcess 1 ∈ main_model
      ⟨"https://example.com/x", "out", "base", false⟩ ⟨2024, 1, 15, 10, 0, 0⟩
      ⟨"example.com", "/x"⟩ (Except.error "boom") false (Except.error "t")
      "2024-01-15" :=
  ((C5_all_or_nothing ⟨"https://example.com/x", "out", "base", false⟩
    ⟨2024, 1, 15, 10, 0, 0⟩ ⟨"example.com", "/x"⟩ (Except.error "boom") false
    (Except.error "t") "2024-01-15").1 (Or.inl (by decide))).2.1

/-- C6: the note is always written to
`<output>/<YYYY-MM-DD-HH-MM-SS>-video-clip.md` for the run's single captured
timestamp (there is no caller-controlled filename), and when audio retention
is requested the audio copy is `<output>/<same timestamp>-video-clip.mp3`,
sharing the one timestamp. -/
theorem C6_filename_convention (args : MainArgs) (ts : Timestamp) (parsed : ParsedUrl)
    (download : Except String (String × Metadata)) (model_found : Bool)
    (engine : Except String String) (today : String) :
    (∀ p c, Ev.writeNote p c ∈
        main_model args ts parsed download model_found engine today →
      p = args.output_path ++ "/" ++ (strf_ts ts ++ "-video-clip.md")) ∧
    (∀ p, Ev.copyAudio p ∈
        main_model args ts parsed download model_found engine today →
      p = args.output_path ++ "/" ++ (strf_ts ts ++ "-video-clip.mp3")) ∧
    (∀ platform audio md transcript,
      detect_platform args.url parsed = Except.ok platform →
      download = Except.ok (audio, md) →
      model_found = true →
      engine = Except.ok transcript →
      Ev.writeNote (args.output_path ++ "/" ++ (strf_ts ts ++ "-video-clip.md"))
          (note_content args.url platform md transcript (generate_summary transcript)
            today (created_str ts)) ∈
        main_model args ts parsed download model_found engine today ∧
      (args.keep_audio = true →
        Ev.copyAudio (args.output_path ++ "/" ++ (strf_ts ts ++ "-video-clip.mp3")) ∈
          main_model args ts parsed download model_found engine today)) := by
  refine ⟨?_, ?_, ?_⟩
  · intro p c hp
    cases hdet : detect_platform args.url parsed with
    | error e => simp [main_model, hdet] at hp
    | ok platform =>
      cases hdl : download with
      | error e => simp [main_model, hdet, hdl] at hp
      | ok pr =>
        obtain ⟨audio, md⟩ := pr
        cases htr : transcribe_audio_model args.model model_found engine with
        | error e => simp [main_model, hdet, hdl, htr] at hp
        | ok transcript =>
          by_cases hk : args.keep_audio = true <;>
            simp [main_model, hdet, hdl, htr, hk, note_path, note_filename] at hp <;>
            exact hp.1
  · intro p hp
    cases hdet : detect_platform args.url parsed with
    | error e => simp [main_model, hdet] at hp
    | ok platform =>
      cases hdl : download with
      | error e => simp [main_model, hdet, hdl] at hp
      | ok pr =>
        obtain ⟨audio, md⟩ := pr
        cases htr : transcribe_audio_model args.model model_found engine with
        | error e => simp [main_model, hdet, hdl, htr] at hp
        | ok transcript =>
          by_cases hk : args.keep_audio = true <;>
            simp [main_model, hdet, hdl, htr, hk, audio_filename] at hp
          exact hp
  · intro platform audio md transcript hdet hdl hmf heng
    subst hdl
    subst hmf
    subst heng
    have htr : transcribe_audio_model args.model true (Except.ok transcript) =
        Except.ok transcript := by simp [transcribe_audio_model]
    constructor
    · simp [main_model, hdet, htr, note_path, note_filename]
    · intro hk
      simp [main_model, hdet, htr, hk, audio_filename]

theorem C6_filename_convention_witness :
    Ev.writeNote ("out" ++ "/" ++ (strf_ts ⟨2024, 1, 15, 10, 30, 5⟩ ++ "-video-clip.md"))
        (note_content "https://youtu.be/x" "youtube"
          { title := "T", uploader := "U", upload_date := "20240101", duration := 65,
            description := "", view_count := 0, like_count := 0 }
          "One. Two. Three." (generate_summary "One. Two. Three.") "2024-01-15"
          (created_str ⟨2024, 1, 15, 10, 30, 5⟩)) ∈
      main_model ⟨"https://youtu.be/x", "out", "base", true⟩ ⟨2024, 1, 15, 10, 30, 5⟩
        ⟨"youtu.be", "/x"⟩
        (Except.ok ("a.mp3",
          { title := "T", uploader := "U", upload_date := "20240101", duration := 65,
            description := "", view_count := 0, like_count := 0 }))
        true (Except.ok "One. Two. Three.") "2024-01-15" ∧
    Ev.copyAudio ("out" ++ "/" ++ (strf_ts ⟨2024, 1, 15, 10, 30, 5⟩ ++ "-video-clip.mp3")) ∈
      main_model ⟨"https://youtu.be/x", "out", "base", true⟩ ⟨2024, 1, 15, 10, 30, 5⟩
        ⟨"youtu.be", "/x"⟩
        (Except.ok ("a.mp3",
          { title := "T", uploader := "U", upload_date := "20240101", duration := 65,
            description := "", view_count := 0, like_count := 0 }))
        true (Except.ok "One. Two. Three.") "2024-01-15" := by
  have h := (C6_filename_convention ⟨"https://youtu.be/x", "out", "base", true⟩
    ⟨2024, 1, 15, 10, 30, 5⟩ ⟨"youtu.be", "/x"⟩
    (Except.ok ("a.mp3",
      { title := "T", uploader := "U", upload_date := "20240101", duration := 65,
        description := "", view_count := 0, like_count := 0 }))
    true (Except.ok "One. Two. Three.") "2024-01-15").2.2 "youtube" "a.mp3"
    { title := "T", uploader := "U", upload_date := "20240101", duration := 65,
      description := "", view_count := 0, like_count := 0 }
    "One. Two. Three." (by rfl) rfl rfl rfl
  exact ⟨h.1, h.2 rfl⟩

/-- C8: the scratch directory never survives the run — on every exit path,
success or failure, the temporary directory is removed (replaying the event
trace leaves no live scratch directory, and every creation is matched by a
removal in the same trace). -/
theorem C8_tempdir_cleanup (args : MainArgs) (ts : Timestamp) (parsed : ParsedUrl)
    (download : Except String (String × Metadata)) (model_found : Bool)
    (engine : Except String String) (today : String) :
    tmpAlive (main_model args ts parsed download model_found engine today) = false ∧
    (Ev.tmpCreate ∈ main_model args ts parsed download model_found engine today →
      Ev.tmpRemove ∈ main_model args ts parsed download model_found engine today) := by
  cases hdet : detect_platform args.url parsed with
  | error e =>
    constructor
    · simp [tmpAlive, main_model, hdet]
    · intro h
      simp [main_model, hdet] at h
  | ok platform =>
    cases hdl : download with
    | error e => constructor <;> simp [tmpAlive, main_model, hdet, hdl]
    | ok pr =>
      obtain ⟨audio, md⟩ := pr
      cases htr : transcribe_audio_model args.model model_found engine with
      | error e => constructor <;> simp [tmpAlive, main_model, hdet, hdl, htr]
      | ok transcript =>
        by_cases hk : args.keep_audio = true <;>
          constructor <;> simp [tmpAlive, main_model, hdet, hdl, htr, hk]

theorem C8_tempdir_cleanup_witness :
    Ev.tmpRemove ∈ main_model ⟨"https://www.tiktok.com/x", "out", "base", false⟩
      ⟨2024, 1, 15, 10, 0, 0⟩ ⟨"www.tiktok.com", "/x"⟩ (Except.error "boom") true
      (Except.ok "T.") "2024-01-15" :=
  (C8_tempdir_cleanup ⟨"https://www.tiktok.com/x", "out", "base", false⟩
    ⟨2024, 1, 15, 10, 0, 0⟩ ⟨"www.tiktok.com", "/x"⟩ (Except.error "boom") true
    (Except.ok "T.") "2024-01-15").2 (by decide)
